import Mathlib

/-!
Verification development for a betting-entry admin dashboard and read-only
results viewer.  The repository's core logic (15-minute slot calculus,
number-space generation, entry aggregation, pending-entry promotion, and
least-bet ranking) is shallowly embedded below; timestamps are modelled as
natural numbers counting seconds, the document store as a list of entries
(insertion order = document creation order, with the document id modelled as
a natural number assigned at insertion), and JavaScript `Set` objects as
`Finset`s (only their size is ever observed).  Presentation-only pieces
(locale-dependent time labels, rendering) are outside the model.
-/

namespace Game

/-- The two bet variants, `'jodi' | 'single'` in the source. -/
inductive Variant where
  | jodi
  | single
deriving DecidableEq, Repr

/-- A user key: either a real `userId` string, or the (unique) document id
used as a fallback when no `userId` is present. -/
abbrev UserKey := String ⊕ Nat

/-- One stored bet document (the `EntryData` interface plus the fields the
promotion engine writes).  `pending = true` means the entry is still in the
staging ("pending") state; a promoted (settled) copy has `pending = false`
and `processedAt = some t`. -/
structure Entry where
  id : Nat
  number : String
  amount : Int
  userId : Option String
  createdAt : Nat
  date : String
  type : Variant
  pending : Bool
  processedAt : Option Nat
deriving DecidableEq, Repr

/-- Zero-pad a numeral to width 2, as in `num < 10 ? `0${num}` : String(num)`
and `String(i).padStart(2, '0')` for `i ≤ 99`. -/
def pad2 (n : Nat) : String :=
  if n < 10 then "0" ++ toString n else toString n

/-- Numeric value of a digit string (`parseInt` on the digit strings this
program feeds it). -/
def numVal (s : String) : Nat :=
  s.toList.foldl (fun a c => a * 10 + (c.toNat - '0'.toNat)) 0

/-- A 15-minute slot `[start, stop)`, times in seconds.  (The source also
carries a locale-formatted label, which is presentation-only and not
modelled.) -/
structure Slot where
  start : Nat
  stop : Nat
deriving DecidableEq, Repr

/-- Midnight of calendar day `d` (the `new Date(dateStr); setHours(0,0,0,0)`
base), in seconds. -/
def dayStart (d : Nat) : Nat := 86400 * d

/-- Source `getTimeSlotBoundaries`: the 96 quarter-hour slots of day `d`, generated
hour-major / quarter-minor and then sorted by descending start time
(`sort((a, b) => b.start - a.start)`). -/
def getTimeSlotBoundaries (d : Nat) : List Slot :=
  let slots := (List.range 24).flatMap (fun hour =>
    (List.range 4).map (fun j =>
      let minute := 15 * j
      let start := dayStart d + 3600 * hour + 60 * minute
      { start := start, stop := start + 900 }))
  List.insertionSort (fun a b => b.start ≤ a.start) slots

/-- Source `getTimeSlotKey`: the slot-end key of a timestamp.  `minutes` is the
minute-of-hour; `Math.ceil((minutes + 1) / 15) * 15` is the rounded minute;
`setMinutes` replaces the minute (carrying into later hours/days) and
seconds/milliseconds are zeroed. -/
def getTimeSlotKey (t : Nat) : Nat :=
  let minutes := t / 60 % 60
  let roundedMinutes := (minutes + 1 + 14) / 15 * 15
  t / 3600 * 3600 + roundedMinutes * 60

/-- Source `generateAllNumbers`: the legal number domain, `"1".."9"` for single and
`"01".."99"` for jodi. -/
def generateAllNumbers (v : Variant) : List String :=
  match v with
  | .single => (List.range 9).map (fun i => toString (i + 1))
  | .jodi => (List.range 99).map (fun i => pad2 (i + 1))

/-! ### Aggregator (`fetchSummary` / per-slot body of `fetchTimeSlotData`) -/

/-- Per-number accumulator: `{ total, users, minAmount }`.  The `+Infinity`
sentinel for `minAmount` is modelled as `none`. -/
structure Info where
  total : Int
  users : Finset UserKey
  minAmount : Option Int
deriving DecidableEq

/-- One output row: `{ number, total, userCount, minAmount }` (the sentinel
is rendered as `0`). -/
structure SummaryItem where
  number : String
  total : Int
  userCount : Nat
  minAmount : Int
deriving DecidableEq, Repr

/-- Fallback key `data.userId || doc.id`: the user key used for distinct-user counting. -/
def userKeyOf (e : Entry) : UserKey :=
  match e.userId with
  | some u => Sum.inl u
  | none => Sum.inr e.id

/-- The zero seed `{ total: 0, users: new Set(), minAmount: Infinity }`. -/
def seedInfo : Info := { total := 0, users := ∅, minAmount := none }

/-- Fold one entry into an accumulator: `total += amount`, `users.add(key)`,
and `minAmount = min(minAmount, amount)` when `amount > 0`. -/
def addTo (i : Info) (e : Entry) : Info :=
  { total := i.total + e.amount
    users := insert (userKeyOf e) i.users
    minAmount :=
      if 0 < e.amount then
        some (match i.minAmount with
              | none => e.amount
              | some v => min v e.amount)
      else i.minAmount }

/-- One step of the entry loop over the insertion-ordered `numberMap`: if the
entry's number has no key yet it is appended at the end
(`if (!numberMap.has(key)) numberMap.set(key, …)`), then the keyed
accumulator is updated in place. -/
def updEntry (m : List (String × Info)) (e : Entry) : List (String × Info) :=
  let m1 := if m.any (fun kv => kv.1 = e.number) then m else m ++ [(e.number, seedInfo)]
  m1.map (fun kv => if kv.1 = e.number then (kv.1, addTo kv.2 e) else kv)

/-- The aggregation body shared by `fetchSummary` and the per-slot loop of
`fetchTimeSlotData`: seed every legal number, fold the entries, emit in map
order. -/
def summarize (es : List Entry) (v : Variant) : List SummaryItem :=
  let seeded := (generateAllNumbers v).map (fun n => (n, seedInfo))
  let m := es.foldl updEntry seeded
  m.map (fun kv =>
    { number := kv.1
      total := kv.2.total
      userCount := kv.2.users.card
      minAmount := kv.2.minAmount.getD 0 })

/-- Source `fetchSummary`: day-level summary over the settled entries of one
`(date, variant)`. -/
def fetchSummary (store : List Entry) (fetchDate : String) (fetchType : Variant) :
    List SummaryItem :=
  summarize
    (store.filter (fun e =>
      decide (e.date = fetchDate) && decide (e.type = fetchType) && (e.pending == false)))
    fetchType

/-- The per-slot summary of `fetchTimeSlotData`: the same aggregation applied
to the settled entries whose `createdAt` falls in `[slot.start, slot.stop)`. -/
def fetchTimeSlotSummary (store : List Entry) (fetchDate : String) (fetchType : Variant)
    (s : Slot) : List SummaryItem :=
  summarize
    ((store.filter (fun e =>
        decide (e.date = fetchDate) && decide (e.type = fetchType) && (e.pending == false))).filter
      (fun e => decide (s.start ≤ e.createdAt) && decide (e.createdAt < s.stop)))
    fetchType

/-! ### Pending-entry promotion (`processPendingEntries`) -/

/-- The settled copy written by `addDoc({...doc.data(), pending: false,
processedAt: Timestamp.now()})`; the new document receives a fresh id. -/
def promoteOne (now : Nat) (nid : Nat) (e : Entry) : Entry :=
  { e with id := nid, pending := false, processedAt := some now }

/-- Insert one settled copy per selected document, ids assigned in store
order. -/
def addSettledCopies (now : Nat) (nid : Nat) : List Entry → List Entry
  | [] => []
  | e :: rest => promoteOne now nid e :: addSettledCopies now (nid + 1) rest

/-- The query predicate of `processPendingEntries`: same `date` and `type`,
`createdAt` in the previous slot `[slotStart - 15min, slotStart)`, and
`pending == true`. -/
def promotionSelect (d : String) (t : Variant) (slotStart : Nat) (e : Entry) : Bool :=
  decide (e.date = d) && decide (e.type = t) &&
    decide (slotStart - 900 ≤ e.createdAt) && decide (e.createdAt < slotStart) && e.pending

/-- Source `processPendingEntries`: query the pending entries of the elapsed slot
and append one settled copy per match; the originals are left untouched. -/
def processPendingEntries (store : List Entry) (d : String) (t : Variant)
    (slotStart : Nat) (now : Nat) : List Entry :=
  let batch := store.filter (promotionSelect d t slotStart)
  store ++ addSettledCopies now store.length batch

/-! ### Submission (`handleSubmit`) -/

/-- Result of a submission: a synchronous validation failure (with the alert
message) or the store extended with the new pending entry. -/
inductive SubmitResult where
  | validationFailed (msg : String)
  | saved (store : List Entry)
deriving DecidableEq, Repr

/-- Regex `/^[1-9]$/`: exactly one digit `1`–`9`. -/
def isSingleFormat (s : String) : Bool :=
  match s.toList with
  | [c] => decide ('1' ≤ c) && decide (c ≤ '9')
  | _ => false

/-- Regex `/^[0-9]{2}$/` with `1 ≤ Number(s) ≤ 99`: exactly two digits with numeric
value between 1 and 99. -/
def isJodiFormat (s : String) : Bool :=
  (decide (s.length = 2) && s.toList.all (fun c => decide ('0' ≤ c) && decide (c ≤ '9'))) &&
    (decide (1 ≤ numVal s) && decide (numVal s ≤ 99))

/-- Source `handleSubmit`: validate the number for the chosen variant and the amount
(`none` models a non-numeric/empty amount field), then insert the entry with
`pending: true`.  Validation failures return before any store interaction. -/
def handleSubmit (store : List Entry) (number : String) (amount : Option Int)
    (t : Variant) (d : String) (now : Nat) : SubmitResult :=
  if t = Variant.single && !isSingleFormat number then
    .validationFailed "Enter a single number from 1 to 9 without leading zero"
  else if t = Variant.jodi && !isJodiFormat number then
    .validationFailed "Enter a jodi number from 01 to 99 with leading zero if < 10"
  else
    match amount with
    | none => .validationFailed "Enter a valid amount"
    | some v =>
      if v ≤ 0 then .validationFailed "Enter a valid amount"
      else
        .saved (store ++
          [{ id := store.length, number := number, amount := v, userId := none,
             createdAt := now, date := d, type := t, pending := true,
             processedAt := none }])

/-! ### Results viewer: least-bet ranking -/

/-- One aggregated row of a slot summary in the viewer:
`{ number, amount, userCount }`. -/
structure AggregatedBet where
  number : String
  amount : Int
  userCount : Nat
deriving DecidableEq, Repr

/-- The bound `viewType === 'single' ? 9 : 99`. -/
def maxNumber (v : Variant) : Nat :=
  if v = Variant.single then 9 else 99

/-- Padding `i.toString().padStart(viewType === 'jodi' ? 2 : 1, '0')`. -/
def padNumFor (v : Variant) (i : Nat) : String :=
  if v = Variant.jodi then pad2 i else toString i

/-- Source `allNumbersWithBets`: every enumerated number paired with its aggregated
bet when one exists (`none` models the `{amount: Infinity, userCount:
Infinity}` sentinel object), with `"00"` filtered out for jodi. -/
def allNumbersWithBets (v : Variant) (bets : List AggregatedBet) :
    List (String × Option AggregatedBet) :=
  ((List.range (maxNumber v + 1)).map (fun i =>
      let num := padNumFor v i
      (num, bets.find? (fun b => decide (b.number = num))))).filter
    (fun p => decide (v = Variant.single) || decide (p.1 ≠ "00"))

/-- The sort comparator of the ranking: ascending by the strict lexicographic
tuple `(amount, userCount, parseInt(number))`. -/
def lbCmp (a b : AggregatedBet) : Prop :=
  a.amount < b.amount ∨
    (a.amount = b.amount ∧
      (a.userCount < b.userCount ∨
        (a.userCount = b.userCount ∧ numVal a.number ≤ numVal b.number)))

instance : DecidableRel lbCmp := fun a b => by
  unfold lbCmp; infer_instance

/-- Source `leastBetNumbers`: drop the sentinel rows, sort by the comparator, take
the first 3 numbers, and right-pad with `"-"` until 3 slots are filled. -/
def leastBetNumbers (v : Variant) (bets : List AggregatedBet) : List String :=
  let nums :=
    ((List.insertionSort lbCmp ((allNumbersWithBets v bets).filterMap Prod.snd)).take 3).map
      (fun b => b.number)
  nums ++ List.replicate (3 - nums.length) "-"

/-- Modelled from the spec's ranking description (§4.5), for comparison with
`leastBetNumbers`: the candidates are exactly the summary rows (numbers with
recorded activity); sort them ascending by `(amount, userCount,
numericValue(number))`, take the first 3 numbers, right-pad with `"-"` to
exactly 3 slots. -/
def specLeastBet (items : List AggregatedBet) : List String :=
  let nums := ((List.insertionSort lbCmp items).take 3).map (fun b => b.number)
  nums ++ List.replicate (3 - nums.length) "-"

/-! ### Results viewer: `fetchData` grouping -/

/-- Per-(slot, number) accumulator of `groupedSlots`: `{ amount, users }`. -/
structure GAgg where
  amount : Int
  users : Finset UserKey
deriving DecidableEq

/-- The viewer's user key: `entry.userId` when present, otherwise a fresh
anonymous token unique to the entry (modelled by the document id). -/
def viewerUserKey (e : Entry) : UserKey :=
  match e.userId with
  | some u => Sum.inl u
  | none => Sum.inr e.id

/-- Update the inner per-number record of one slot group (append the key on
first sight, then `amount += entry.amount` and `users.add(...)`). -/
def addNum (inner : List (String × GAgg)) (e : Entry) : List (String × GAgg) :=
  let m1 :=
    if inner.any (fun kv => kv.1 = e.number) then inner
    else inner ++ [(e.number, { amount := 0, users := ∅ })]
  m1.map (fun kv =>
    if kv.1 = e.number then
      (kv.1, { amount := kv.2.amount + e.amount, users := insert (viewerUserKey e) kv.2.users })
    else kv)

/-- One step of the `rawData.forEach` loop of `fetchData`: compute the
entry's slot key and, only when `slotTime <= now`, fold the entry into
`groupedSlots[slotKey][entry.number]`. -/
def addToGroups (now : Nat) (g : List (Nat × List (String × GAgg))) (e : Entry) :
    List (Nat × List (String × GAgg)) :=
  let k := getTimeSlotKey e.createdAt
  if k ≤ now then
    let g1 := if g.any (fun kv => kv.1 = k) then g else g ++ [(k, [])]
    g1.map (fun kv => if kv.1 = k then (kv.1, addNum kv.2 e) else kv)
  else g

/-- The `groupedSlots` object built by `fetchData`: the store is filtered by
`type` and `date` (note: no `pending` filter), ordered by `createdAt`
descending, and folded into slot groups. -/
def groupedSlots (store : List Entry) (t : Variant) (d : String) (now : Nat) :
    List (Nat × List (String × GAgg)) :=
  let raw :=
    List.insertionSort (fun a b => b.createdAt ≤ a.createdAt)
      (store.filter (fun e => decide (e.type = t) && decide (e.date = d)))
  raw.foldl (addToGroups now) []

/-- The `fetchData` final slot array: the groups sorted by descending slot
key. -/
def fetchData (store : List Entry) (t : Variant) (d : String) (now : Nat) :
    List (Nat × List (String × GAgg)) :=
  List.insertionSort (fun a b => b.1 ≤ a.1) (groupedSlots store t d now)

/-- Lookup of `groupedSlots[k][n]`. -/
def lookupG (g : List (Nat × List (String × GAgg))) (k : Nat) (n : String) : Option GAgg :=
  match g.find? (fun kv => kv.1 = k) with
  | none => none
  | some kv =>
    match kv.2.find? (fun nv => nv.1 = n) with
    | none => none
    | some nv => some nv.2

/-- The aggregated amount displayed for slot `k` and number `n` (0 when the
bucket does not exist). -/
def slotAmount (g : List (Nat × List (String × GAgg))) (k : Nat) (n : String) : Int :=
  match lookupG g k n with
  | none => 0
  | some a => a.amount

/-! ## Theorems -/

/-- Closed form of the slot key: the next multiple of 900 seconds strictly
after `t`'s 15-minute block. -/
theorem getTimeSlotKey_eq (t : Nat) : getTimeSlotKey t = (t / 900 + 1) * 900 := by
  simp only [getTimeSlotKey]
  omega

/-- C3: for every timestamp `t`, `getTimeSlotKey t` is the slot-end that is
the smallest multiple of 15 minutes strictly greater than `t`'s minute
truncation (seconds zeroed, carrying into the next hour/day); in particular
minute 07 maps to the :15 boundary and a timestamp exactly on 12:15:00 maps
to 12:30:00, never to itself. -/
theorem getTimeSlotKey_spec (t k : Nat) (hk : k % 900 = 0) (hgt : 60 * (t / 60) < k) :
    getTimeSlotKey t % 900 = 0
    ∧ 60 * (t / 60) < getTimeSlotKey t
    ∧ getTimeSlotKey t ≤ k
    ∧ getTimeSlotKey (12 * 3600 + 7 * 60) = 12 * 3600 + 15 * 60
    ∧ getTimeSlotKey (12 * 3600 + 15 * 60) = 12 * 3600 + 30 * 60 := by
  have h := getTimeSlotKey_eq t
  refine ⟨by omega, by omega, by omega, by decide, by decide⟩

/-- Witness for C3 at `t = 727` (12:07 of day zero, scaled down), `k = 900`. -/
theorem getTimeSlotKey_spec_witness :
    getTimeSlotKey 727 % 900 = 0
    ∧ 60 * (727 / 60) < getTimeSlotKey 727
    ∧ getTimeSlotKey 727 ≤ 900
    ∧ getTimeSlotKey (12 * 3600 + 7 * 60) = 12 * 3600 + 15 * 60
    ∧ getTimeSlotKey (12 * 3600 + 15 * 60) = 12 * 3600 + 30 * 60 :=
  getTimeSlotKey_spec 727 900 (by decide) (by decide)

/-- C8: `generateAllNumbers` yields exactly the ordered sequence
`"1".."9"` for single (9 elements, none containing the digit `'0'`) and
exactly the ordered sequence `"01".."99"` zero-padded to width 2 for jodi
(99 elements, `"00"` excluded). -/
theorem generateAllNumbers_spec :
    (generateAllNumbers Variant.single).length = 9
    ∧ (∀ k, k < 9 → (generateAllNumbers Variant.single).getD k "" = toString (k + 1))
    ∧ (∀ s ∈ generateAllNumbers Variant.single, '0' ∉ s.toList)
    ∧ (generateAllNumbers Variant.jodi).length = 99
    ∧ (∀ k, k < 99 → (generateAllNumbers Variant.jodi).getD k "" = pad2 (k + 1))
    ∧ "00" ∉ generateAllNumbers Variant.jodi
    ∧ (∀ s ∈ generateAllNumbers Variant.jodi, s.length = 2) := by
  decide

/-- C1 (code bug): running `processPendingEntries` twice for the same elapsed
slot over the same `(date, variant)` context double-promotes: starting from a
store holding one pending entry of that slot, the resulting store contains
two settled copies of it instead of one. -/
theorem processPendingEntries_not_idempotent :
    ((processPendingEntries
        (processPendingEntries
          [{ id := 0, number := "07", amount := 100, userId := none, createdAt := 950,
             date := "2025-01-01", type := Variant.jodi, pending := true,
             processedAt := none }]
          "2025-01-01" Variant.jodi 1800 1805)
        "2025-01-01" Variant.jodi 1800 1810).filter (fun e => !e.pending)).length = 2 := by
  decide

/-- The variant's number-format rule (single: one digit 1–9; jodi: two
digits, zero-padded, value 1–99). -/
def validNumberFormat (t : Variant) (n : String) : Bool :=
  match t with
  | .single => isSingleFormat n
  | .jodi => isJodiFormat n

/-- C6: `handleSubmit` fails validation — returning before any store
interaction — exactly when the number fails the variant's format rule or the
amount is non-numeric (`none`) or `≤ 0`; otherwise the entry is inserted
with `pending = true` (settled = false).  The spec's concrete cases are
included: jodi `"00"` rejected, single `"7"` accepted, amounts `-5` and `0`
rejected. -/
theorem handleSubmit_spec (store : List Entry) (n : String) (a : Option Int)
    (t : Variant) (d : String) (now : Nat) :
    ((∃ msg, handleSubmit store n a t d now = .validationFailed msg) ↔
      ¬(validNumberFormat t n = true ∧ ∃ v, a = some v ∧ 0 < v))
    ∧ (∀ v, a = some v → 0 < v → validNumberFormat t n = true →
        handleSubmit store n a t d now =
          .saved (store ++
            [{ id := store.length, number := n, amount := v, userId := none,
               createdAt := now, date := d, type := t, pending := true,
               processedAt := none }]))
    ∧ (∃ msg, handleSubmit store "00" (some 5) Variant.jodi d now = .validationFailed msg)
    ∧ (∃ msg, handleSubmit store "7" (some (-5)) Variant.single d now = .validationFailed msg)
    ∧ (∃ msg, handleSubmit store "7" (some 0) Variant.single d now = .validationFailed msg)
    ∧ handleSubmit store "7" (some 100) Variant.single d now =
        .saved (store ++
          [{ id := store.length, number := "7", amount := 100, userId := none,
             createdAt := now, date := d, type := Variant.single, pending := true,
             processedAt := none }]) := by
  refine ⟨?_, ?_, ?_, ?_, ?_, ?_⟩
  · cases t <;> cases a <;>
      simp only [handleSubmit, validNumberFormat] <;>
      split_ifs <;> simp_all
  · intro v hv hpos hfmt
    subst hv
    cases t <;> simp_all [handleSubmit, validNumberFormat]
  · have h : isJodiFormat "00" = false := by decide
    simp [handleSubmit, h]
  · simp [handleSubmit, isSingleFormat]
  · simp [handleSubmit, isSingleFormat]
  · simp [handleSubmit, isSingleFormat]

theorem addSettledCopies_length (now : Nat) : ∀ (nid : Nat) (l : List Entry),
    (addSettledCopies now nid l).length = l.length
  | _, [] => rfl
  | nid, _ :: rest => by
    simp [addSettledCopies, addSettledCopies_length now (nid + 1) rest]

theorem mem_addSettledCopies (now : Nat) : ∀ (nid : Nat) (l : List Entry),
    ∀ e' ∈ addSettledCopies now nid l, ∃ e ∈ l, ∃ j, e' = promoteOne now j e := by
  intro nid l
  induction l generalizing nid with
  | nil => intro e' h; cases h
  | cons x rest ih =>
    intro e' h
    simp only [addSettledCopies, List.mem_cons] at h
    rcases h with h | h
    · exact ⟨x, List.mem_cons_self x rest, nid, h⟩
    · rcases ih (nid + 1) e' h with ⟨e, he, j, hj⟩
      exact ⟨e, List.mem_cons_of_mem x he, j, hj⟩

theorem addSettledCopies_mem (now : Nat) : ∀ (nid : Nat) (l : List Entry),
    ∀ e ∈ l, ∃ j, promoteOne now j e ∈ addSettledCopies now nid l := by
  intro nid l
  induction l generalizing nid with
  | nil => intro e h; cases h
  | cons x rest ih =>
    intro e h
    simp only [List.mem_cons] at h
    rcases h with rfl | h
    · exact ⟨nid, by simp [addSettledCopies]⟩
    · rcases ih (nid + 1) e h with ⟨j, hj⟩
      exact ⟨j, by simp [addSettledCopies, hj]⟩

/-- C5: the promotion run selects exactly the pending entries of the chosen
`(date, variant)` whose `createdAt` lies in `[slotStart − 15min, slotStart)`,
appends for each one a new record copying every data field with the settled
flag set (`pending = false`) and a promotion timestamp, and leaves every
original record in the store byte-for-byte unchanged. -/
theorem processPendingEntries_spec (store : List Entry) (d : String) (t : Variant)
    (slotStart now : Nat) :
    (processPendingEntries store d t slotStart now).take store.length = store
    ∧ (processPendingEntries store d t slotStart now).length =
        store.length + (store.filter (promotionSelect d t slotStart)).length
    ∧ (∀ e ∈ store, e.pending = true → e.date = d → e.type = t →
        slotStart - 900 ≤ e.createdAt → e.createdAt < slotStart →
        ∃ e' ∈ processPendingEntries store d t slotStart now,
          e'.number = e.number ∧ e'.amount = e.amount ∧ e'.userId = e.userId ∧
          e'.createdAt = e.createdAt ∧ e'.date = e.date ∧ e'.type = e.type ∧
          e'.pending = false ∧ e'.processedAt = some now)
    ∧ (∀ e' ∈ (processPendingEntries store d t slotStart now).drop store.length,
        e'.pending = false ∧ e'.processedAt = some now ∧
        ∃ e ∈ store, e.pending = true ∧ e.date = d ∧ e.type = t ∧
          slotStart - 900 ≤ e.createdAt ∧ e.createdAt < slotStart ∧
          e'.number = e.number ∧ e'.amount = e.amount ∧ e'.userId = e.userId ∧
          e'.createdAt = e.createdAt ∧ e'.date = e.date ∧ e'.type = e.type) := by
  have hsel : ∀ e : Entry, promotionSelect d t slotStart e = true ↔
      (e.date = d ∧ e.type = t ∧ slotStart - 900 ≤ e.createdAt ∧
        e.createdAt < slotStart ∧ e.pending = true) := by
    intro e
    simp [promotionSelect, and_assoc]
  refine ⟨?_, ?_, ?_, ?_⟩
  · simp [processPendingEntries, List.take_left]
  · simp [processPendingEntries, addSettledCopies_length]
  · intro e he hp hd ht h1 h2
    have hmemf : e ∈ store.filter (promotionSelect d t slotStart) :=
      List.mem_filter.mpr ⟨he, (hsel e).mpr ⟨hd, ht, h1, h2, hp⟩⟩
    rcases addSettledCopies_mem now store.length _ e hmemf with ⟨j, hj⟩
    refine ⟨promoteOne now j e, ?_, rfl, rfl, rfl, rfl, rfl, rfl, rfl, rfl⟩
    exact List.mem_append_right _ hj
  · intro e' he'
    rw [processPendingEntries, List.drop_left] at he'
    rcases mem_addSettledCopies now store.length _ e' he' with ⟨e, hmemf, j, hj⟩
    have hmem := (List.mem_filter.mp hmemf).1
    have hprops := (hsel e).mp (List.mem_filter.mp hmemf).2
    subst hj
    exact ⟨rfl, rfl, e, hmem, hprops.2.2.2.2, hprops.1, hprops.2.1,
      hprops.2.2.1, hprops.2.2.2.1, rfl, rfl, rfl, rfl, rfl, rfl⟩

theorem orderedInsert_eq_append {α : Type} (r : α → α → Prop) [DecidableRel r] (x : α) :
    ∀ l : List α, (∀ y ∈ l, ¬ r x y) → List.orderedInsert r x l = l ++ [x]
  | [], _ => rfl
  | b :: l, h => by
    have hb : ¬ r x b := h b (List.mem_cons_self _ _)
    simp only [List.orderedInsert, if_neg hb, List.cons_append]
    rw [orderedInsert_eq_append r x l (fun y hy => h y (List.mem_cons_of_mem _ hy))]

/-- Insertion sort of a list that is already strictly sorted the opposite
way reverses it. -/
theorem insertionSort_eq_reverse {α : Type} (r : α → α → Prop) [DecidableRel r] :
    ∀ l : List α, (l.Pairwise fun a b => ¬ r a b) → List.insertionSort r l = l.reverse
  | [], _ => rfl
  | a :: t, h => by
    rcases List.pairwise_cons.mp h with ⟨ha, ht⟩
    simp only [List.insertionSort, List.reverse_cons]
    rw [insertionSort_eq_reverse r t ht]
    exact orderedInsert_eq_append r a t.reverse (fun y hy => ha y (List.mem_reverse.mp hy))

/-- The 96 slots of a day, in the descending order the function returns
them. -/
theorem getTimeSlotBoundaries_eq (d : Nat) :
    getTimeSlotBoundaries d =
      (List.range 96).map
        (fun k => ⟨86400 * d + 900 * (95 - k), 86400 * d + 900 * (95 - k) + 900⟩) := by
  have hgen :
      ((List.range 24).flatMap (fun hour =>
        (List.range 4).map (fun j =>
          let minute := 15 * j
          let start := dayStart d + 3600 * hour + 60 * minute
          ({ start := start, stop := start + 900 } : Slot)))) =
      ((List.range 96).map fun i => ({ start := 900 * i, stop := 900 * i + 900 } : Slot)).map
        (fun s => ({ start := dayStart d + s.start, stop := dayStart d + s.stop } : Slot)) := by
    have hbase :
        ((List.range 24).flatMap (fun hour =>
          (List.range 4).map (fun j =>
            ({ start := 3600 * hour + 60 * (15 * j),
               stop := 3600 * hour + 60 * (15 * j) + 900 } : Slot)))) =
        (List.range 96).map fun i => ({ start := 900 * i, stop := 900 * i + 900 } : Slot) := by
      decide
    rw [← hbase, List.map_flatMap]
    refine List.flatMap_congr ?_
    intro hour _
    rw [List.map_map]
    refine List.map_congr_left ?_
    intro j _
    show (⟨dayStart d + 3600 * hour + 60 * (15 * j),
            dayStart d + 3600 * hour + 60 * (15 * j) + 900⟩ : Slot) = _
    simp only [Function.comp]
    refine congrArg₂ Slot.mk ?_ ?_ <;> omega
  have hpw :
      (((List.range 96).map fun i => ({ start := 900 * i, stop := 900 * i + 900 } : Slot)).map
        (fun s => ({ start := dayStart d + s.start, stop := dayStart d + s.stop } : Slot))).Pairwise
        (fun a b => ¬ b.start ≤ a.start) := by
    rw [List.map_map, List.pairwise_map]
    refine (List.pairwise_lt_range 96).imp ?_
    intro a b hab
    simp only [Function.comp]
    omega
  rw [getTimeSlotBoundaries, hgen, insertionSort_eq_reverse _ _ hpw, List.map_map,
    ← List.map_reverse]
  have hrev : (List.range 96).reverse = (List.range 96).map (fun k => 95 - k) := by decide
  rw [hrev, List.map_map]
  refine List.map_congr_left ?_
  intro k hk
  have hk96 : k < 96 := List.mem_range.mp hk
  simp only [Function.comp]
  refine congrArg₂ Slot.mk ?_ ?_ <;> simp only [dayStart] <;> omega

/-- C7: for every day, `getTimeSlotBoundaries` returns exactly 96
contiguous, non-overlapping 15-minute intervals covering the whole day, each
boundary with seconds (and milliseconds) zero, in strictly descending
start-time order: slot `k` spans
`[midnight + 900·(95−k), midnight + 900·(95−k) + 900)`. -/
theorem getTimeSlotBoundaries_spec (d k : Nat) (hk : k < 96) :
    (getTimeSlotBoundaries d).length = 96
    ∧ (getTimeSlotBoundaries d)[k]? =
        some ⟨86400 * d + 900 * (95 - k), 86400 * d + 900 * (95 - k) + 900⟩
    ∧ (∀ s ∈ getTimeSlotBoundaries d,
        s.stop = s.start + 900 ∧ s.start % 60 = 0 ∧ s.stop % 60 = 0)
    ∧ (getTimeSlotBoundaries d).Pairwise (fun a b => b.start < a.start)
    ∧ (k + 1 < 96 →
        ((getTimeSlotBoundaries d)[k + 1]?).map Slot.stop =
          ((getTimeSlotBoundaries d)[k]?).map Slot.start)
    ∧ ((getTimeSlotBoundaries d)[95]?).map Slot.start = some (86400 * d)
    ∧ ((getTimeSlotBoundaries d)[0]?).map Slot.stop = some (86400 * d + 86400) := by
  rw [getTimeSlotBoundaries_eq]
  refine ⟨by simp, ?_, ?_, ?_, ?_, ?_, ?_⟩
  · rw [List.getElem?_map, List.getElem?_range hk]
    rfl
  · intro s hs
    rcases List.mem_map.mp hs with ⟨i, hi, rfl⟩
    refine ⟨rfl, ?_, ?_⟩
    · show (86400 * d + 900 * (95 - i)) % 60 = 0
      omega
    · show (86400 * d + 900 * (95 - i) + 900) % 60 = 0
      omega
  · rw [List.pairwise_map]
    refine (List.pairwise_lt_range 96).imp_of_mem ?_
    intro a b ha hb hab
    have ha96 : a < 96 := List.mem_range.mp ha
    have hb96 : b < 96 := List.mem_range.mp hb
    show 86400 * d + 900 * (95 - b) < 86400 * d + 900 * (95 - a)
    omega
  · intro hk1
    rw [List.getElem?_map, List.getElem?_map, List.getElem?_range hk1, List.getElem?_range hk]
    show some (86400 * d + 900 * (95 - (k + 1)) + 900) = some (86400 * d + 900 * (95 - k))
    exact congrArg some (by omega)
  · rw [List.getElem?_map, List.getElem?_range (by omega : (95 : Nat) < 96)]
    show some (86400 * d + 900 * (95 - 95)) = some (86400 * d)
    exact congrArg some (by omega)
  · rw [List.getElem?_map, List.getElem?_range (by omega : (0 : Nat) < 96)]
    show some (86400 * d + 900 * (95 - 0) + 900) = some (86400 * d + 86400)
    exact congrArg some (by omega)

/-- Witness for C7 at `d = 1`, `k = 3`. -/
theorem getTimeSlotBoundaries_spec_witness :
    (getTimeSlotBoundaries 1).length = 96
    ∧ (getTimeSlotBoundaries 1)[3]? =
        some ⟨86400 * 1 + 900 * (95 - 3), 86400 * 1 + 900 * (95 - 3) + 900⟩
    ∧ (∀ s ∈ getTimeSlotBoundaries 1,
        s.stop = s.start + 900 ∧ s.start % 60 = 0 ∧ s.stop % 60 = 0)
    ∧ (getTimeSlotBoundaries 1).Pairwise (fun a b => b.start < a.start)
    ∧ (3 + 1 < 96 →
        ((getTimeSlotBoundaries 1)[3 + 1]?).map Slot.stop =
          ((getTimeSlotBoundaries 1)[3]?).map Slot.start)
    ∧ ((getTimeSlotBoundaries 1)[95]?).map Slot.start = some (86400 * 1)
    ∧ ((getTimeSlotBoundaries 1)[0]?).map Slot.stop = some (86400 * 1 + 86400) :=
  getTimeSlotBoundaries_spec 1 3 (by decide)

theorem any_key_iff (m : List (String × Info)) (k : String) :
    m.any (fun kv => kv.1 = k) = true ↔ k ∈ m.map Prod.fst := by
  rw [List.any_eq_true]
  constructor
  · rintro ⟨kv, hkv, hp⟩
    exact List.mem_map.mpr ⟨kv, hkv, of_decide_eq_true hp⟩
  · intro h
    rcases List.mem_map.mp h with ⟨kv, hkv, rfl⟩
    exact ⟨kv, hkv, decide_eq_true rfl⟩

theorem updEntry_of_mem (m : List (String × Info)) (e : Entry)
    (h : e.number ∈ m.map Prod.fst) :
    updEntry m e = m.map (fun kv => if kv.1 = e.number then (kv.1, addTo kv.2 e) else kv) := by
  unfold updEntry
  rw [if_pos ((any_key_iff m e.number).mpr h)]

theorem map_fst_map_upd (l : List (String × Info)) (e : Entry) :
    (l.map (fun kv => if kv.1 = e.number then (kv.1, addTo kv.2 e) else kv)).map Prod.fst =
      l.map Prod.fst := by
  rw [List.map_map]
  refine List.map_congr_left ?_
  intro kv _
  simp only [Function.comp]
  split <;> rfl

theorem keys_updEntry_of_mem (m : List (String × Info)) (e : Entry)
    (h : e.number ∈ m.map Prod.fst) :
    (updEntry m e).map Prod.fst = m.map Prod.fst := by
  rw [updEntry_of_mem m e h, map_fst_map_upd]

theorem mem_keys_updEntry (m : List (String × Info)) (e : Entry) (k : String)
    (h : k ∈ m.map Prod.fst) : k ∈ (updEntry m e).map Prod.fst := by
  unfold updEntry
  cases hc : m.any (fun kv => kv.1 = e.number) <;> simp only [hc, if_true, if_false,
    Bool.false_eq_true, Bool.true_eq_false, map_fst_map_upd]
  · rw [List.map_append]
    exact List.mem_append_left _ h
  · exact h

theorem addTo_addTo_comm (i : Info) (x y : Entry) :
    addTo (addTo i x) y = addTo (addTo i y) x := by
  rcases i with ⟨tot, us, mn⟩
  unfold addTo
  simp only
  by_cases hx : (0 : Int) < x.amount <;> by_cases hy : (0 : Int) < y.amount <;>
    rcases mn with _ | v <;>
    simp [hx, hy, add_right_comm, Finset.Insert.comm, min_comm, min_left_comm, min_assoc,
      min_right_comm]

theorem upd_pointwise (e : Entry) (k : String) (i : Info) :
    (if k = e.number then (k, addTo i e) else (k, i)) =
      (k, if k = e.number then addTo i e else i) := by
  split <;> rfl

theorem updEntry_comm (m : List (String × Info)) (x y : Entry)
    (hx : x.number ∈ m.map Prod.fst) (hy : y.number ∈ m.map Prod.fst) :
    updEntry (updEntry m x) y = updEntry (updEntry m y) x := by
  have hx' : x.number ∈ (updEntry m y).map Prod.fst := by
    rw [keys_updEntry_of_mem m y hy]; exact hx
  have hy' : y.number ∈ (updEntry m x).map Prod.fst := by
    rw [keys_updEntry_of_mem m x hx]; exact hy
  rw [updEntry_of_mem _ y hy', updEntry_of_mem _ x hx', updEntry_of_mem m x hx,
    updEntry_of_mem m y hy, List.map_map, List.map_map]
  refine List.map_congr_left ?_
  intro kv _
  rcases kv with ⟨k, i⟩
  simp only [Function.comp]
  rw [upd_pointwise x k i, upd_pointwise y k i]
  dsimp only
  rw [upd_pointwise y k _, upd_pointwise x k _]
  refine congrArg (Prod.mk k) ?_
  by_cases h1 : k = x.number <;> by_cases h2 : k = y.number
  · have h3 : x.number = y.number := h1.symm.trans h2
    simp [h1, h2, h3, addTo_addTo_comm i x y]
  · have h3 : ¬ x.number = y.number := fun hh => h2 (h1.trans hh)
    simp [h1, h2, h3]
  · have h3 : ¬ y.number = x.number := fun hh => h1 (h2.trans hh)
    simp [h1, h2, h3]
  · simp [h1, h2]

theorem foldl_updEntry_keys (es : List Entry) :
    ∀ m : List (String × Info), (∀ e ∈ es, e.number ∈ m.map Prod.fst) →
      (es.foldl updEntry m).map Prod.fst = m.map Prod.fst := by
  induction es with
  | nil => intro m _; rfl
  | cons e t ih =>
    intro m hm
    simp only [List.foldl_cons]
    rw [ih (updEntry m e) ?_, keys_updEntry_of_mem m e (hm e (List.mem_cons_self _ _))]
    intro x hx
    rw [keys_updEntry_of_mem m e (hm e (List.mem_cons_self _ _))]
    exact hm x (List.mem_cons_of_mem _ hx)

theorem foldl_updEntry_keys_mono (es : List Entry) :
    ∀ (m : List (String × Info)) (k : String), k ∈ m.map Prod.fst →
      k ∈ (es.foldl updEntry m).map Prod.fst := by
  induction es with
  | nil => intro m k h; exact h
  | cons e t ih =>
    intro m k h
    simp only [List.foldl_cons]
    exact ih _ k (mem_keys_updEntry m e k h)

theorem foldl_updEntry_perm {es es' : List Entry} (hp : es.Perm es') :
    ∀ m : List (String × Info), (∀ e ∈ es, e.number ∈ m.map Prod.fst) →
      es.foldl updEntry m = es'.foldl updEntry m := by
  induction hp with
  | nil => intro m _; rfl
  | cons x h ih =>
    intro m hm
    simp only [List.foldl_cons]
    refine ih _ ?_
    intro e he
    rw [keys_updEntry_of_mem m x (hm x (List.mem_cons_self _ _))]
    exact hm e (List.mem_cons_of_mem _ he)
  | swap x y l =>
    intro m hm
    simp only [List.foldl_cons]
    rw [updEntry_comm m y x (hm y (List.mem_cons_self _ _))
      (hm x (List.mem_cons_of_mem _ (List.mem_cons_self _ _)))]
  | trans h1 _ ih1 ih2 =>
    intro m hm
    rw [ih1 m hm]
    exact ih2 m (fun e he => hm e (h1.mem_iff.mpr he))

theorem seeded_keys (v : Variant) :
    (((generateAllNumbers v).map (fun n => (n, seedInfo))).map Prod.fst) =
      generateAllNumbers v := by
  rw [List.map_map]
  have h : (Prod.fst ∘ fun n : String => (n, seedInfo)) = id := rfl
  rw [h, List.map_id]

theorem summarize_map_number (es : List Entry) (v : Variant) :
    (summarize es v).map (fun s => s.number) =
      (es.foldl updEntry ((generateAllNumbers v).map (fun n => (n, seedInfo)))).map
        Prod.fst := by
  unfold summarize
  rw [List.map_map]
  refine List.map_congr_left ?_
  intro kv _
  rfl

theorem summarize_foldl_eq (v : Variant) {es es' : List Entry}
    (hq : es.foldl updEntry ((generateAllNumbers v).map (fun n => (n, seedInfo))) =
      es'.foldl updEntry ((generateAllNumbers v).map (fun n => (n, seedInfo)))) :
    summarize es v = summarize es' v := by
  simp only [summarize]
  rw [hq]

/-- C2 (amended): the aggregator's output always contains every legal number
of the variant (zero-activity numbers included, with `total = 0`), and its
number sequence equals exactly the legal domain whenever every input entry's
number lies in the legal domain.  (An entry carrying an out-of-domain number
— possible because the store is only validated at submission — is appended
to the output as an extra number, see the counterexample.) -/
theorem summarize_domain_spec (v : Variant) (es : List Entry)
    (h : ∀ e ∈ es, e.number ∈ generateAllNumbers v) :
    (summarize es v).map (fun s => s.number) = generateAllNumbers v
    ∧ (∀ es' : List Entry, ∀ n ∈ generateAllNumbers v,
        n ∈ (summarize es' v).map (fun s => s.number))
    ∧ summarize [] v =
        (generateAllNumbers v).map
          (fun n => { number := n, total := 0, userCount := 0, minAmount := 0 }) := by
  refine ⟨?_, ?_, ?_⟩
  · rw [summarize_map_number, foldl_updEntry_keys, seeded_keys]
    intro e he
    rw [seeded_keys]
    exact h e he
  · intro es' n hn
    rw [summarize_map_number]
    refine foldl_updEntry_keys_mono es' _ n ?_
    rw [seeded_keys]
    exact hn
  · simp only [summarize, List.foldl_nil, List.map_map]
    refine List.map_congr_left ?_
    intro n _
    rfl

/-- C2 counterexample: a store entry with the out-of-domain number `"00"`
(variant jodi) makes the aggregator emit `"00"`, so the output number set is
not exactly the legal domain. -/
theorem summarize_domain_counterexample :
    "00" ∈ (summarize
        [{ id := 0, number := "00", amount := 50, userId := none, createdAt := 100,
           date := "2025-01-01", type := Variant.jodi, pending := false,
           processedAt := none }] Variant.jodi).map (fun s => s.number)
    ∧ "00" ∉ generateAllNumbers Variant.jodi
    ∧ (summarize
        [{ id := 0, number := "00", amount := 50, userId := none, createdAt := 100,
           date := "2025-01-01", type := Variant.jodi, pending := false,
           processedAt := none }] Variant.jodi).map (fun s => s.number) ≠
        generateAllNumbers Variant.jodi := by
  refine ⟨by decide, by decide, by decide⟩

/-- Witness for C2 on a singleton in-domain entry collection. -/
theorem summarize_domain_spec_witness :
    (summarize
        [{ id := 0, number := "07", amount := 50, userId := none, createdAt := 100,
           date := "2025-01-01", type := Variant.jodi, pending := false,
           processedAt := none }] Variant.jodi).map (fun s => s.number) =
      generateAllNumbers Variant.jodi
    ∧ (∀ es' : List Entry, ∀ n ∈ generateAllNumbers Variant.jodi,
        n ∈ (summarize es' Variant.jodi).map (fun s => s.number))
    ∧ summarize [] Variant.jodi =
        (generateAllNumbers Variant.jodi).map
          (fun n => { number := n, total := 0, userCount := 0, minAmount := 0 }) :=
  summarize_domain_spec Variant.jodi
    [{ id := 0, number := "07", amount := 50, userId := none, createdAt := 100,
       date := "2025-01-01", type := Variant.jodi, pending := false,
       processedAt := none }] (by decide)

/-- C9 (amended): for entry collections whose numbers all lie in the
variant's legal domain, permuting the entries leaves the aggregator output
unchanged (even as a list — totals, distinct-user counts and minimum
positive amounts are order-independent), and the output sequence is the
seeded legal-domain order.  (Out-of-domain numbers are appended in
first-arrival order, so for them only the per-number aggregates — not the
sequence — are order-independent; see the counterexample.) -/
theorem summarize_perm_spec (v : Variant) (es es' : List Entry)
    (h : ∀ e ∈ es, e.number ∈ generateAllNumbers v) (hp : es.Perm es') :
    summarize es v = summarize es' v
    ∧ (summarize es v).map (fun s => s.number) = generateAllNumbers v := by
  constructor
  · refine summarize_foldl_eq v (foldl_updEntry_perm hp _ ?_)
    intro e he
    rw [seeded_keys]
    exact h e he
  · rw [summarize_map_number, foldl_updEntry_keys, seeded_keys]
    intro e he
    rw [seeded_keys]
    exact h e he

/-- C9 counterexample: with out-of-domain numbers (`"00"` and `"0"`, variant
jodi) the output sequence depends on entry arrival order, so it is not
always in the seeded legal-domain order. -/
theorem summarize_perm_counterexample :
    ([({ id := 0, number := "00", amount := 50, userId := none, createdAt := 100,
         date := "d", type := Variant.jodi, pending := false, processedAt := none } : Entry),
       { id := 1, number := "0", amount := 20, userId := none, createdAt := 120,
         date := "d", type := Variant.jodi, pending := false, processedAt := none }]).Perm
      [({ id := 1, number := "0", amount := 20, userId := none, createdAt := 120,
          date := "d", type := Variant.jodi, pending := false, processedAt := none } : Entry),
        { id := 0, number := "00", amount := 50, userId := none, createdAt := 100,
          date := "d", type := Variant.jodi, pending := false, processedAt := none }]
    ∧ (summarize
        [({ id := 0, number := "00", amount := 50, userId := none, createdAt := 100,
            date := "d", type := Variant.jodi, pending := false, processedAt := none } : Entry),
          { id := 1, number := "0", amount := 20, userId := none, createdAt := 120,
            date := "d", type := Variant.jodi, pending := false, processedAt := none }]
        Variant.jodi).map (fun s => s.number) ≠
      (summarize
        [({ id := 1, number := "0", amount := 20, userId := none, createdAt := 120,
            date := "d", type := Variant.jodi, pending := false, processedAt := none } : Entry),
          { id := 0, number := "00", amount := 50, userId := none, createdAt := 100,
            date := "d", type := Variant.jodi, pending := false, processedAt := none }]
        Variant.jodi).map (fun s => s.number) := by
  refine ⟨by decide, by decide⟩

/-- Witness for C9 on a two-element in-domain collection and its swap. -/
theorem summarize_perm_spec_witness :
    summarize
        [({ id := 0, number := "07", amount := 50, userId := none, createdAt := 100,
            date := "d", type := Variant.jodi, pending := false, processedAt := none } : Entry),
          { id := 1, number := "13", amount := 20, userId := none, createdAt := 120,
            date := "d", type := Variant.jodi, pending := false, processedAt := none }]
        Variant.jodi =
      summarize
        [({ id := 1, number := "13", amount := 20, userId := none, createdAt := 120,
            date := "d", type := Variant.jodi, pending := false, processedAt := none } : Entry),
          { id := 0, number := "07", amount := 50, userId := none, createdAt := 100,
            date := "d", type := Variant.jodi, pending := false, processedAt := none }]
        Variant.jodi
    ∧ (summarize
        [({ id := 0, number := "07", amount := 50, userId := none, createdAt := 100,
            date := "d", type := Variant.jodi, pending := false, processedAt := none } : Entry),
          { id := 1, number := "13", amount := 20, userId := none, createdAt := 120,
            date := "d", type := Variant.jodi, pending := false, processedAt := none }]
        Variant.jodi).map (fun s => s.number) = generateAllNumbers Variant.jodi :=
  summarize_perm_spec Variant.jodi _ _ (by decide) (by decide)

theorem find?_key_map {κ β : Type} [DecidableEq κ] (l : List (κ × β)) (f : κ × β → κ × β)
    (hf : ∀ x, (f x).1 = x.1) (k : κ) :
    (l.map f).find? (fun kv => kv.1 = k) = Option.map f (l.find? (fun kv => kv.1 = k)) := by
  rw [List.find?_map]
  have h : ((fun kv : κ × β => decide (kv.1 = k)) ∘ f) = fun kv : κ × β => decide (kv.1 = k) := by
    funext x
    simp [Function.comp, hf]
  rw [h]

/-- The amount recorded for number `n` in one slot's inner map. -/
def amountIn (inner : List (String × GAgg)) (n : String) : Int :=
  match inner.find? (fun nv => nv.1 = n) with
  | none => 0
  | some nv => nv.2.amount

theorem slotAmount_eq_amountIn (g : List (Nat × List (String × GAgg))) (k : Nat) (n : String) :
    slotAmount g k n =
      match g.find? (fun kv => kv.1 = k) with
      | none => 0
      | some kv => amountIn kv.2 n := by
  unfold slotAmount lookupG amountIn
  cases hfind : g.find? (fun kv => kv.1 = k) with
  | none => simp [hfind]
  | some kv =>
    cases hfind2 : kv.2.find? (fun nv => nv.1 = n) <;> simp [hfind, hfind2]

theorem amountIn_addNum (inner : List (String × GAgg)) (e : Entry) (n : String) :
    amountIn (addNum inner e) n = amountIn inner n + (if e.number = n then e.amount else 0) := by
  have hf : ∀ x : String × GAgg,
      ((fun kv : String × GAgg => if kv.1 = e.number then
        (kv.1, { amount := kv.2.amount + e.amount,
                 users := insert (viewerUserKey e) kv.2.users }) else kv) x).1 = x.1 := by
    intro x
    dsimp only
    split <;> rfl
  by_cases hn : e.number = n
  · subst hn
    unfold addNum
    cases hc : inner.any (fun kv => kv.1 = e.number) <;>
      simp only [hc, Bool.false_eq_true, Bool.true_eq_false, if_true, if_false]
    · -- key absent: appended then updated
      have hnone : inner.find? (fun nv => nv.1 = e.number) = none := by
        rw [List.find?_eq_none]
        intro x hx
        have := (List.any_eq_false.mp hc) x hx
        simpa using this
      unfold amountIn
      rw [find?_key_map _ _ hf, List.find?_append, hnone]
      simp [List.find?_cons]
    · -- key present: first occurrence updated in place
      have hsome : ∃ nv, inner.find? (fun nv => nv.1 = e.number) = some nv := by
        rcases hfind : inner.find? (fun nv => nv.1 = e.number) with _ | nv
        · rcases List.any_eq_true.mp hc with ⟨x, hx, hpx⟩
          rw [List.find?_eq_none] at hfind
          exact absurd hpx (hfind x hx)
        · exact ⟨nv, hfind⟩
      rcases hsome with ⟨nv, hnv⟩
      have hnv1 : nv.1 = e.number := by
        have := List.find?_some hnv
        simpa using this
      unfold amountIn
      rw [find?_key_map _ _ hf, hnv]
      simp [hnv1]
  · unfold addNum amountIn
    have heq : ∀ m1 : List (String × GAgg),
        m1.find? (fun nv => nv.1 = n) = inner.find? (fun nv => nv.1 = n) →
        (match (m1.map (fun kv : String × GAgg => if kv.1 = e.number then
            (kv.1, { amount := kv.2.amount + e.amount,
                     users := insert (viewerUserKey e) kv.2.users }) else kv)).find?
            (fun nv => nv.1 = n) with
          | none => 0
          | some nv => nv.2.amount) =
        (match inner.find? (fun nv => nv.1 = n) with
          | none => (0 : Int)
          | some nv => nv.2.amount) := by
      intro m1 hm1
      rw [find?_key_map _ _ hf, hm1]
      cases hfind : inner.find? (fun nv => nv.1 = n) with
      | none => simp [hfind]
      | some nv =>
        have hnv1 : nv.1 = n := by
          have := List.find?_some hfind
          simpa using this
        have hne : ¬ nv.1 = e.number := by
          rw [hnv1]
          exact fun hh => hn hh.symm
        simp [hfind, hne]
    cases hc : inner.any (fun kv => kv.1 = e.number) <;>
      simp only [hc, Bool.false_eq_true, Bool.true_eq_false, if_true, if_false, hn, ite_false]
    · have hm1 : (inner ++ [((e.number : String), ({ amount := 0, users := ∅ } : GAgg))]).find?
          (fun nv => nv.1 = n) = inner.find? (fun nv => nv.1 = n) := by
        rw [List.find?_append]
        have h2 : ([((e.number : String), ({ amount := 0, users := ∅ } : GAgg))]).find?
            (fun nv => nv.1 = n) = none := by
          simp [List.find?_cons, hn]
        rw [h2]
        simp
      rw [heq _ hm1]
      simp
    · rw [heq inner rfl]
      simp

theorem slotAmount_addToGroups (now : Nat) (g : List (Nat × List (String × GAgg)))
    (e : Entry) (k : Nat) (n : String) :
    slotAmount (addToGroups now g e) k n =
      slotAmount g k n +
        (if getTimeSlotKey e.createdAt = k ∧ e.number = n ∧ getTimeSlotKey e.createdAt ≤ now
         then e.amount else 0) := by
  have hfOut : ∀ x : Nat × List (String × GAgg),
      ((fun kv : Nat × List (String × GAgg) =>
        if kv.1 = getTimeSlotKey e.createdAt then (kv.1, addNum kv.2 e) else kv) x).1 = x.1 := by
    intro x
    dsimp only
    split <;> rfl
  by_cases hnow : getTimeSlotKey e.createdAt ≤ now
  · simp only [addToGroups, if_pos hnow]
    by_cases hk : getTimeSlotKey e.createdAt = k
    · have hcond : (getTimeSlotKey e.createdAt = k ∧ e.number = n ∧
          getTimeSlotKey e.createdAt ≤ now) ↔ e.number = n :=
        ⟨fun h => h.2.1, fun h => ⟨hk, h, hnow⟩⟩
      rw [if_congr hcond rfl rfl]
      rw [slotAmount_eq_amountIn, slotAmount_eq_amountIn]
      cases hc : g.any (fun kv => kv.1 = getTimeSlotKey e.createdAt) <;>
        simp only [hc, Bool.false_eq_true, Bool.true_eq_false, if_true, if_false]
      · -- slot key absent: appended then updated
        have hnone : g.find? (fun kv => kv.1 = k) = none := by
          rw [List.find?_eq_none]
          intro x hx
          have := (List.any_eq_false.mp hc) x hx
          simpa [hk] using this
        rw [find?_key_map _ _ hfOut, List.find?_append, hnone]
        have h2 : ([((getTimeSlotKey e.createdAt : Nat), ([] : List (String × GAgg)))]).find?
            (fun kv => kv.1 = k) = some (getTimeSlotKey e.createdAt, []) := by
          simp [List.find?_cons, hk]
        rw [h2]
        simp only [Option.none_or]
        simpa [amountIn] using amountIn_addNum [] e n
      · -- slot key present: first occurrence updated
        have hsome : ∃ kv, g.find? (fun kv => kv.1 = k) = some kv := by
          rcases List.any_eq_true.mp hc with ⟨x, hx, hpx⟩
          have hpx' : x.1 = getTimeSlotKey e.createdAt := by simpa using hpx
          cases hfind : g.find? (fun kv => kv.1 = k) with
          | none =>
            rw [List.find?_eq_none] at hfind
            exact absurd (by simp [hpx', hk]) (hfind x hx)
          | some kv => exact ⟨kv, rfl⟩
        rcases hsome with ⟨kv0, hkv0⟩
        have hkv01 : kv0.1 = k := by
          have := List.find?_some hkv0
          simpa using this
        rw [find?_key_map _ _ hfOut, hkv0]
        have hif : (if kv0.1 = getTimeSlotKey e.createdAt then (kv0.1, addNum kv0.2 e) else kv0) =
            (kv0.1, addNum kv0.2 e) := if_pos (by rw [hkv01]; exact hk.symm)
        simp [hif, amountIn_addNum]
    · have hcond : ¬(getTimeSlotKey e.createdAt = k ∧ e.number = n ∧
          getTimeSlotKey e.createdAt ≤ now) := fun h => hk h.1
      rw [if_neg hcond, add_zero]
      rw [slotAmount_eq_amountIn, slotAmount_eq_amountIn]
      have hstep : ∀ g1 : List (Nat × List (String × GAgg)),
          g1.find? (fun kv => kv.1 = k) = g.find? (fun kv => kv.1 = k) →
          (match (g1.map (fun kv : Nat × List (String × GAgg) =>
              if kv.1 = getTimeSlotKey e.createdAt then (kv.1, addNum kv.2 e) else kv)).find?
              (fun kv => kv.1 = k) with
            | none => (0 : Int)
            | some kv => amountIn kv.2 n) =
          (match g.find? (fun kv => kv.1 = k) with
            | none => (0 : Int)
            | some kv => amountIn kv.2 n) := by
        intro g1 hg1
        rw [find?_key_map _ _ hfOut, hg1]
        cases hfind : g.find? (fun kv => kv.1 = k) with
        | none => simp [hfind]
        | some kv =>
          have hkv1 : kv.1 = k := by
            have := List.find?_some hfind
            simpa using this
          have hne : ¬ kv.1 = getTimeSlotKey e.createdAt := by
            rw [hkv1]
            exact fun hh => hk hh.symm
          simp [hfind, hne]
      cases hc : g.any (fun kv => kv.1 = getTimeSlotKey e.createdAt) <;>
        simp only [hc, Bool.false_eq_true, Bool.true_eq_false, if_true, if_false]
      · refine hstep (g ++ [(getTimeSlotKey e.createdAt, [])]) ?_
        rw [List.find?_append]
        have h2 : ([((getTimeSlotKey e.createdAt : Nat), ([] : List (String × GAgg)))]).find?
            (fun kv => kv.1 = k) = none := by
          simp [List.find?_cons, hk]
        rw [h2]
        simp
      · exact hstep g rfl
  · simp only [addToGroups, if_neg hnow]
    have hcond : ¬(getTimeSlotKey e.createdAt = k ∧ e.number = n ∧
        getTimeSlotKey e.createdAt ≤ now) := fun h => hnow h.2.2
    rw [if_neg hcond, add_zero]

theorem slotAmount_foldl (now : Nat) (es : List Entry) :
    ∀ (g : List (Nat × List (String × GAgg))) (k : Nat) (n : String),
      slotAmount (es.foldl (addToGroups now) g) k n =
        slotAmount g k n +
          ((es.filter (fun e => decide (getTimeSlotKey e.createdAt = k) &&
              decide (e.number = n) && decide (getTimeSlotKey e.createdAt ≤ now))).map
            (fun e => e.amount)).sum := by
  induction es with
  | nil => intro g k n; simp
  | cons e t ih =>
    intro g k n
    simp only [List.foldl_cons, List.filter_cons]
    rw [ih, slotAmount_addToGroups]
    by_cases h1 : getTimeSlotKey e.createdAt = k
    · subst h1
      by_cases h2 : e.number = n <;> by_cases h3 : getTimeSlotKey e.createdAt ≤ now <;>
        simp [h2, h3] <;> ring
    · by_cases h2 : e.number = n <;> by_cases h3 : getTimeSlotKey e.createdAt ≤ now <;>
        simp [h1, h2, h3] <;> ring

/-- The aggregated amount shown for slot `k`, number `n` after the viewer's
grouping: zero unless `k ≤ now`, otherwise the sum of the amounts of all
matching entries — pending or settled alike. -/
theorem groupedSlots_amount (store : List Entry) (t : Variant) (d : String) (now k : Nat)
    (n : String) :
    slotAmount (groupedSlots store t d now) k n =
      if k ≤ now then
        ((store.filter (fun e => decide (e.type = t) && decide (e.date = d) &&
            decide (e.number = n) && decide (getTimeSlotKey e.createdAt = k))).map
          (fun e => e.amount)).sum
      else 0 := by
  simp only [groupedSlots]
  rw [slotAmount_foldl]
  have h0 : slotAmount [] k n = 0 := rfl
  rw [h0, zero_add]
  have hperm : (List.insertionSort (fun a b => b.createdAt ≤ a.createdAt)
      (store.filter (fun e => decide (e.type = t) && decide (e.date = d)))).Perm
      (store.filter (fun e => decide (e.type = t) && decide (e.date = d))) :=
    List.perm_insertionSort _ _
  have hperm2 := ((hperm.filter (fun e => decide (getTimeSlotKey e.createdAt = k) &&
      decide (e.number = n) && decide (getTimeSlotKey e.createdAt ≤ now))).map
    (fun e => e.amount)).sum_eq
  rw [hperm2, List.filter_filter]
  by_cases hk : k ≤ now
  · rw [if_pos hk]
    refine congrArg _ (congrArg _ (List.filter_congr ?_))
    intro e _
    by_cases e1 : getTimeSlotKey e.createdAt = k <;>
      by_cases e2 : e.number = n <;>
      by_cases e3 : e.type = t <;>
      by_cases e4 : e.date = d <;>
      simp [e1, e2, e3, e4, hk]
  · rw [if_neg hk]
    have hnil : (store.filter fun e => (decide (getTimeSlotKey e.createdAt = k) &&
        decide (e.number = n) && decide (getTimeSlotKey e.createdAt ≤ now)) &&
        (decide (e.type = t) && decide (e.date = d))) = [] := by
      rw [List.filter_eq_nil_iff]
      intro e _
      simp only [Bool.and_eq_true, decide_eq_true_eq]
      rintro ⟨⟨⟨hh1, _⟩, hh3⟩, _⟩
      exact hk (hh1 ▸ hh3)
    rw [hnil]
    rfl

/-- C10: in the read-only viewer an entry of the selected `(variant, date)`
contributes to a slot's aggregate exactly when its slot-end key is `≤` the
query time; the query and grouping never filter on the pending flag, so a
pending original together with its promoted settled copy is counted twice —
adding both to the store adds `2 ×` the bet's amount to the slot's total. -/
theorem fetchData_contribution_spec (store : List Entry) (t : Variant) (d : String)
    (now k : Nat) (n : String) :
    (slotAmount (groupedSlots store t d now) k n =
      if k ≤ now then
        ((store.filter (fun e => decide (e.type = t) && decide (e.date = d) &&
            decide (e.number = n) && decide (getTimeSlotKey e.createdAt = k))).map
          (fun e => e.amount)).sum
      else 0)
    ∧ (∀ (e : Entry) (pt : Nat), e.pending = true → e.type = t → e.date = d →
        e.number = n → getTimeSlotKey e.createdAt = k → k ≤ now →
        slotAmount
            (groupedSlots (store ++ [e, promoteOne pt (store.length + 1) e]) t d now) k n =
          slotAmount (groupedSlots store t d now) k n + 2 * e.amount) := by
  refine ⟨groupedSlots_amount store t d now k n, ?_⟩
  intro e pt _ h1 h2 h3 h4 h5
  rw [groupedSlots_amount, groupedSlots_amount, if_pos h5, if_pos h5,
    List.filter_append, List.map_append, List.sum_append]
  have he : (decide (e.type = t) && decide (e.date = d) &&
      decide (e.number = n) && decide (getTimeSlotKey e.createdAt = k)) = true := by
    simp [h1, h2, h3, h4]
  have he' : (decide ((promoteOne pt (store.length + 1) e).type = t) &&
      decide ((promoteOne pt (store.length + 1) e).date = d) &&
      decide ((promoteOne pt (store.length + 1) e).number = n) &&
      decide (getTimeSlotKey (promoteOne pt (store.length + 1) e).createdAt = k)) = true := by
    simp [promoteOne, h1, h2, h3, h4]
  have hamt : (promoteOne pt (store.length + 1) e).amount = e.amount := rfl
  simp only [List.filter_cons, he, he', if_pos, List.filter_nil, List.map_cons,
    List.map_nil, List.sum_cons, List.sum_nil, hamt]
  ring

/-- The enumerated candidate numbers of the ranking (with jodi's `"00"`
filtered out). -/
def numsList (v : Variant) : List String :=
  ((List.range (maxNumber v + 1)).map (padNumFor v)).filter
    (fun num => decide (v = Variant.single) || decide (num ≠ "00"))

theorem filterMap_snd_comm {α β : Type} (g : α → Option β) (q : α → Bool) :
    ∀ l : List α,
      ((l.map (fun a => (a, g a))).filter (fun p => q p.1)).filterMap Prod.snd =
        (l.filter q).filterMap g
  | [] => rfl
  | a :: t => by
    have hrec := filterMap_snd_comm g q t
    simp only [List.map_cons, List.filter_cons]
    cases hq : q a
    · simp only [hq, Bool.false_eq_true, if_false]
      exact hrec
    · simp only [hq, if_true]
      rw [List.filterMap_cons, List.filterMap_cons]
      cases hga : g a <;> simp [hga, hrec]

theorem allNumbersWithBets_eq (v : Variant) (bets : List AggregatedBet) :
    (allNumbersWithBets v bets).filterMap Prod.snd =
      (numsList v).filterMap (fun num => bets.find? (fun b => b.number = num)) := by
  unfold allNumbersWithBets numsList
  rw [show ((List.range (maxNumber v + 1)).map (fun i =>
      (padNumFor v i, bets.find? (fun b => decide (b.number = padNumFor v i))))) =
    (((List.range (maxNumber v + 1)).map (padNumFor v)).map
      (fun num => (num, bets.find? (fun b => decide (b.number = num))))) from by
    rw [List.map_map]
    rfl]
  exact filterMap_snd_comm (fun num => bets.find? (fun b => decide (b.number = num)))
    (fun num => decide (v = Variant.single) || decide (num ≠ "00"))
    ((List.range (maxNumber v + 1)).map (padNumFor v))

set_option maxRecDepth 200000 in
theorem domain_sub_numsList (v : Variant) : ∀ n ∈ generateAllNumbers v, n ∈ numsList v := by
  cases v <;> decide

set_option maxRecDepth 200000 in
theorem numsList_nodup (v : Variant) : (numsList v).Nodup := by
  cases v <;> decide

set_option maxRecDepth 1000000 in
set_option maxHeartbeats 2000000 in
theorem numVal_injOn (v : Variant) :
    ∀ x ∈ generateAllNumbers v, ∀ y ∈ generateAllNumbers v, numVal x = numVal y → x = y := by
  cases v <;> decide

theorem find?_number_eq {l : List AggregatedBet}
    (hnd : (l.map (fun b => b.number)).Nodup) {a : AggregatedBet} (ha : a ∈ l) :
    l.find? (fun x => x.number = a.number) = some a := by
  induction l with
  | nil => cases ha
  | cons x t ih =>
    rw [List.find?_cons]
    rcases List.mem_cons.mp ha with rfl | hat
    · simp
    · have hnd' : x.number ∉ t.map (fun b => b.number) ∧
          (t.map (fun b => b.number)).Nodup := by
        rw [List.map_cons, List.nodup_cons] at hnd
        exact hnd
      have hx : ¬ x.number = a.number := by
        intro hh
        exact hnd'.1 (hh ▸ List.mem_map.mpr ⟨a, hat, rfl⟩)
      have hdx : decide (x.number = a.number) = false := decide_eq_false hx
      simp only [hdx]
      exact ih hnd'.2 hat

theorem filterMap_find_map_number_sublist (items : List AggregatedBet) :
    ∀ l : List String,
      ((l.filterMap (fun num => items.find? (fun b => b.number = num))).map
        (fun b => b.number)).Sublist l := by
  intro l
  induction l with
  | nil => simp
  | cons a t ih =>
    rw [List.filterMap_cons]
    cases hga : items.find? (fun b => b.number = a) with
    | none => exact ih.cons a
    | some b =>
      have hb : b.number = a := by simpa using List.find?_some hga
      rw [List.map_cons, hb]
      exact ih.cons₂ a

theorem eq_of_perm_of_sorted_mem {α : Type} {r : α → α → Prop} :
    ∀ {l₁ l₂ : List α}, l₁.Perm l₂ → l₁.Sorted r → l₂.Sorted r →
      (∀ a ∈ l₁, ∀ b ∈ l₁, r a b → r b a → a = b) → l₁ = l₂ := by
  intro l₁
  induction l₁ with
  | nil =>
    intro l₂ hp _ _ _
    exact hp.nil_eq
  | cons a t ih =>
    intro l₂ hp hs1 hs2 hanti
    cases l₂ with
    | nil => exact absurd hp.eq_nil (by simp)
    | cons b t₂ =>
      have hab : a = b := by
        by_cases h : a = b
        · exact h
        · have ha2 : a ∈ b :: t₂ := hp.mem_iff.mp (List.mem_cons_self _ _)
          have hat2 : a ∈ t₂ := by
            rcases List.mem_cons.mp ha2 with h' | h'
            · exact absurd h' h
            · exact h'
          have hrba : r b a := List.rel_of_sorted_cons hs2 a hat2
          have hb1 : b ∈ a :: t := hp.mem_iff.mpr (List.mem_cons_self _ _)
          have hbt : b ∈ t := by
            rcases List.mem_cons.mp hb1 with h' | h'
            · exact absurd h'.symm h
            · exact h'
          have hrab : r a b := List.rel_of_sorted_cons hs1 b hbt
          exact hanti a (List.mem_cons_self _ _) b (List.mem_cons_of_mem _ hbt) hrab hrba
      subst hab
      have hpt : t.Perm t₂ := hp.cons_inv
      have hrest := ih hpt hs1.of_cons hs2.of_cons (fun x hx y hy hxy hyx =>
        hanti x (List.mem_cons_of_mem _ hx) y (List.mem_cons_of_mem _ hy) hxy hyx)
      rw [hrest]

instance lbCmp_total : IsTotal AggregatedBet lbCmp := by
  constructor
  intro a b
  unfold lbCmp
  omega

instance lbCmp_trans : IsTrans AggregatedBet lbCmp := by
  constructor
  intro a b c hab hbc
  unfold lbCmp at *
  omega

/-- C4 (amended): for every slot summary list whose numbers are pairwise
distinct and lie in the variant's legal domain, the least-bet ranking equals
the spec's procedure — sort the candidates ascending by the strict
lexicographic tuple `(amount, userCount, numericValue(number))`, take the
first 3, right-pad with `"-"` — and always returns exactly 3 strings; on the
spec's example the result is `["09", "07", "05"]`.  (A summary row whose
number lies outside the legal domain has recorded activity but is dropped
from eligibility by the code's domain enumeration; see the
counterexample.) -/
theorem leastBetNumbers_spec (v : Variant) (items : List AggregatedBet)
    (hleg : ∀ b ∈ items, b.number ∈ generateAllNumbers v)
    (hnd : (items.map (fun b => b.number)).Nodup) :
    leastBetNumbers v items = specLeastBet items
    ∧ (leastBetNumbers v items).length = 3
    ∧ leastBetNumbers Variant.jodi
        [⟨"05", 100, 2⟩, ⟨"07", 100, 1⟩, ⟨"09", 50, 3⟩] = ["09", "07", "05"] := by
  have hnd_items : items.Nodup := hnd.of_map
  have hmem : ∀ b, b ∈ (numsList v).filterMap
      (fun num => items.find? (fun x => x.number = num)) ↔ b ∈ items := by
    intro b
    constructor
    · intro hb
      rcases List.mem_filterMap.mp hb with ⟨num, _, hfind⟩
      exact List.mem_of_find?_eq_some hfind
    · intro hb
      exact List.mem_filterMap.mpr
        ⟨b.number, domain_sub_numsList v _ (hleg b hb), find?_number_eq hnd hb⟩
  have hnd_cands : ((numsList v).filterMap
      (fun num => items.find? (fun x => x.number = num))).Nodup :=
    List.Nodup.of_map (fun b => b.number)
      ((filterMap_find_map_number_sublist items (numsList v)).nodup (numsList_nodup v))
  have hperm : ((numsList v).filterMap
      (fun num => items.find? (fun x => x.number = num))).Perm items :=
    (List.perm_ext_iff_of_nodup hnd_cands hnd_items).mpr hmem
  have hanti : ∀ a ∈ List.insertionSort lbCmp ((numsList v).filterMap
        (fun num => items.find? (fun x => x.number = num))),
      ∀ b ∈ List.insertionSort lbCmp ((numsList v).filterMap
        (fun num => items.find? (fun x => x.number = num))),
      lbCmp a b → lbCmp b a → a = b := by
    intro a ha b hb hab hba
    have ha' : a ∈ items := (hmem a).mp ((List.mem_insertionSort lbCmp).mp ha)
    have hb' : b ∈ items := (hmem b).mp ((List.mem_insertionSort lbCmp).mp hb)
    have h3 : numVal a.number = numVal b.number := by
      unfold lbCmp at hab hba
      omega
    have h4 : a.number = b.number :=
      numVal_injOn v _ (hleg a ha') _ (hleg b hb') h3
    exact List.inj_on_of_nodup_map hnd ha' hb' h4
  have hsorted_eq : List.insertionSort lbCmp ((numsList v).filterMap
        (fun num => items.find? (fun x => x.number = num))) =
      List.insertionSort lbCmp items :=
    eq_of_perm_of_sorted_mem
      ((List.perm_insertionSort _ _).trans (hperm.trans (List.perm_insertionSort _ _).symm))
      (List.sorted_insertionSort _ _) (List.sorted_insertionSort _ _) hanti
  refine ⟨?_, ?_, by decide⟩
  · simp only [leastBetNumbers, specLeastBet]
    rw [allNumbersWithBets_eq, hsorted_eq]
  · simp only [leastBetNumbers]
    rw [List.length_append, List.length_replicate, List.length_map, List.length_take]
    omega

/-- C4 counterexample: a summary row for the out-of-domain number `"00"`
(variant jodi) has recorded activity, yet the code's ranking drops it while
the claimed procedure ranks it. -/
theorem leastBetNumbers_counterexample :
    leastBetNumbers Variant.jodi [⟨"00", 50, 1⟩] = ["-", "-", "-"]
    ∧ specLeastBet [⟨"00", 50, 1⟩] = ["00", "-", "-"]
    ∧ leastBetNumbers Variant.jodi [⟨"00", 50, 1⟩] ≠ specLeastBet [⟨"00", 50, 1⟩] := by
  refine ⟨by decide, by decide, by decide⟩

/-- Witness for C4 at the spec's example input. -/
theorem leastBetNumbers_spec_witness :
    leastBetNumbers Variant.jodi [⟨"05", 100, 2⟩, ⟨"07", 100, 1⟩, ⟨"09", 50, 3⟩] =
      specLeastBet [⟨"05", 100, 2⟩, ⟨"07", 100, 1⟩, ⟨"09", 50, 3⟩]
    ∧ (leastBetNumbers Variant.jodi
        [⟨"05", 100, 2⟩, ⟨"07", 100, 1⟩, ⟨"09", 50, 3⟩]).length = 3
    ∧ leastBetNumbers Variant.jodi
        [⟨"05", 100, 2⟩, ⟨"07", 100, 1⟩, ⟨"09", 50, 3⟩] = ["09", "07", "05"] :=
  leastBetNumbers_spec Variant.jodi [⟨"05", 100, 2⟩, ⟨"07", 100, 1⟩, ⟨"09", 50, 3⟩]
    (by decide) (by decide)

end Game
